import Mathlib

/-!
Shallow embedding of the Konpeito profiling runtime
(src/lib/konpeito/codegen/profile_runtime.c) and verification of its
specification.

Modelling conventions:
* C `uint64_t` values are `Nat` with an explicit `% U64MOD` at every write
  that the C code performs with 64-bit wrap-around; `uint64_t` subtraction
  is `sub64`.
* C `int` function ids are `Int`, checked against `MAX_FUNCTIONS` exactly
  as the C guards do.
* C strings are `List Char` (`CStr`); a possibly-NULL `const char*` is
  `Option CStr`.
* The global mutable state (`g_profiles`, `g_num_functions`,
  `g_output_path`, `g_initialized`, `g_stack_samples`) is a
  `ProfilerState` record threaded explicitly.  The fixed array
  `g_profiles[MAX_FUNCTIONS]` is a total function `Int → FunctionProfile`
  (only indices checked in range are ever touched).
* The two thread-local arrays `tls_call_stack` and `tls_current_stack`
  always agree on the first `tls_stack_depth` entries (both are written at
  index `tls_stack_depth` on every push and share the depth counter), so
  the thread state is one list of `CallStackEntry` with the head being the
  top of the stack; the flame-graph shape (`tls_current_stack[0..depth)`,
  outermost first) is recovered by `shapeOf`.
* A `StackSample` stores `depth` plus a fixed array of which the first
  `depth` cells matter; it is modelled as the list of those cells, so the
  C comparison (depth first, then elementwise) is list equality.
* The clock (`get_time_ns`) is an external input: every operation that
  reads it takes the observed `now` value as an argument.
-/

/-- C string: a byte/char sequence. -/
abbrev CStr := List Char

/-- 2^64, the modulus of `uint64_t` arithmetic. -/
def U64MOD : Nat := 18446744073709551616

/-- `uint64_t` subtraction `a - b` (wrap-around). -/
def sub64 (a b : Nat) : Nat :=
  ((a % U64MOD) + (U64MOD - b % U64MOD)) % U64MOD

/-- `#define MAX_FUNCTIONS 4096` (used only in `int` comparisons). -/
def MAX_FUNCTIONS : Int := 4096

/-- `#define MAX_CALL_DEPTH 256`. -/
def MAX_CALL_DEPTH : Nat := 256

/-- `#define MAX_STACK_SAMPLES 65536`. -/
def MAX_STACK_SAMPLES : Nat := 65536

/-- Per-function profiling data (`FunctionProfile` in the C source). -/
structure FunctionProfile where
  name : Option CStr
  call_count : Nat
  total_time_ns : Nat
deriving DecidableEq

/-- Stack sample for the flame graph (`StackSample` in the C source); the
list holds the first `depth` cells of `func_ids`, outermost first. -/
structure StackSample where
  func_ids : List Int
  time_ns : Nat
deriving DecidableEq

/-- One active call on a thread (`CallStackEntry` in the C source). -/
structure CallStackEntry where
  func_id : Int
  entry_time : Nat
deriving DecidableEq

/-- The file-scope globals of profile_runtime.c. -/
structure ProfilerState where
  profiles : Int → FunctionProfile
  num_functions : Int
  output_path : CStr
  initialized : Bool
  stack_samples : List StackSample

/-- The globals at program start (static initializers). -/
def initialState : ProfilerState :=
  { profiles := fun _ => { name := none, call_count := 0, total_time_ns := 0 }
    num_functions := 0
    output_path := "konpeito_profile.json".data
    initialized := false
    stack_samples := [] }

/-- The flame-graph shape of a thread stack: `tls_current_stack[0..depth)`,
outermost first (the head of the modelled stack is the innermost frame). -/
def shapeOf (tls : List CallStackEntry) : List Int :=
  (tls.map (fun e => e.func_id)).reverse

/-- Index of the first stack sample whose ids match the given shape
(the linear scan in `find_or_create_stack_sample`, which compares the
depth and then the ids elementwise, i.e. list equality). -/
def findSampleIdx : List StackSample → List Int → Option Nat
  | [], _ => none
  | s :: rest, shape =>
      if s.func_ids = shape then some 0
      else (findSampleIdx rest shape).map (fun i => i + 1)

/-- `find_or_create_stack_sample`: returns the index of the sample for the
shape (creating it with time 0 if capacity remains) together with the
updated table, or `none` when the table is full and the shape is new. -/
def find_or_create_stack_sample (samples : List StackSample)
    (shape : List Int) : Option Nat × List StackSample :=
  match findSampleIdx samples shape with
  | some i => (some i, samples)
  | none =>
      if MAX_STACK_SAMPLES ≤ samples.length then (none, samples)
      else (some samples.length, samples ++ [{ func_ids := shape, time_ns := 0 }])

/-- Add `t` (with `uint64_t` wrap-around) to the time of the sample at
index `i` (`g_stack_samples[idx].time_ns += time_ns`). -/
def addTimeAt : List StackSample → Nat → Nat → List StackSample
  | [], _, _ => []
  | s :: rest, 0, t => { s with time_ns := (s.time_ns + t) % U64MOD } :: rest
  | s :: rest, Nat.succ i, t => s :: addTimeAt rest i t

/-- The sample-table update performed by `record_stack_time` for a given
shape: find or create the sample, then add the elapsed time to it; a full
table with a new shape leaves the table untouched. -/
def recordShapeTime (samples : List StackSample) (shape : List Int)
    (t : Nat) : List StackSample :=
  match find_or_create_stack_sample samples shape with
  | (some i, ss) => addTimeAt ss i t
  | (none, ss) => ss

/-- `record_stack_time`: no-op on an empty thread stack, otherwise updates
the global sample table at the current shape. -/
def record_stack_time (g : ProfilerState) (tls : List CallStackEntry)
    (time_ns : Nat) : ProfilerState :=
  if tls.length = 0 then g
  else { g with stack_samples := recordShapeTime g.stack_samples (shapeOf tls) time_ns }

/-- `konpeito_profile_init`. -/
def konpeito_profile_init (g : ProfilerState) (num_functions : Int)
    (output_path : Option CStr) : ProfilerState :=
  if g.initialized then g
  else
    { g with
      num_functions := if num_functions < MAX_FUNCTIONS then num_functions else MAX_FUNCTIONS
      output_path :=
        match output_path with
        | some p => if p.length < 1024 then p else g.output_path
        | none => g.output_path
      profiles := fun _ => { name := none, call_count := 0, total_time_ns := 0 }
      initialized := true }

/-- `konpeito_profile_enter`; `now` is the value read from the clock. -/
def konpeito_profile_enter (g : ProfilerState) (tls : List CallStackEntry)
    (func_id : Int) (func_name : Option CStr) (now : Nat) :
    ProfilerState × List CallStackEntry :=
  if g.initialized = false then (g, tls)
  else if func_id < 0 ∨ MAX_FUNCTIONS ≤ func_id then (g, tls)
  else if MAX_CALL_DEPTH ≤ tls.length then (g, tls)
  else
    let p := g.profiles func_id
    let p1 : FunctionProfile :=
      { name := (match p.name with
                 | none => func_name
                 | some n => some n)
        call_count := (p.call_count + 1) % U64MOD
        total_time_ns := p.total_time_ns }
    ({ g with profiles := Function.update g.profiles func_id p1 },
      { func_id := func_id, entry_time := now } :: tls)

/-- `konpeito_profile_exit`; `now` is the value read from the clock. -/
def konpeito_profile_exit (g : ProfilerState) (tls : List CallStackEntry)
    (func_id : Int) (now : Nat) : ProfilerState × List CallStackEntry :=
  if g.initialized = false then (g, tls)
  else if func_id < 0 ∨ MAX_FUNCTIONS ≤ func_id then (g, tls)
  else
    match tls with
    | [] => (g, tls)
    | top :: rest =>
      if top.func_id = func_id then
        let elapsed := sub64 now top.entry_time
        let p := g.profiles func_id
        let p1 : FunctionProfile :=
          { p with total_time_ns := (p.total_time_ns + elapsed) % U64MOD }
        let g1 : ProfilerState :=
          { g with profiles := Function.update g.profiles func_id p1 }
        (record_stack_time g1 (top :: rest) elapsed, rest)
      else (g, rest)

/-- One instrumentation event on a thread, carrying the clock value the
runtime would observe at that point. -/
inductive PEvent where
  | enter (id : Int) (name : Option CStr) (now : Nat)
  | exit (id : Int) (now : Nat)
deriving DecidableEq

/-- Run a sequence of events against the global and thread-local state. -/
def runTrace : ProfilerState × List CallStackEntry → List PEvent →
    ProfilerState × List CallStackEntry
  | s, [] => s
  | s, PEvent.enter id nm now :: tr => runTrace (konpeito_profile_enter s.1 s.2 id nm now) tr
  | s, PEvent.exit id now :: tr => runTrace (konpeito_profile_exit s.1 s.2 id now) tr

/-- Number of `enter(f, …)` events in a trace. -/
def countEnter (f : Int) : List PEvent → Nat
  | [] => 0
  | PEvent.enter id _ _ :: tr => (if id = f then 1 else 0) + countEnter f tr
  | PEvent.exit _ _ :: tr => countEnter f tr

/-- Bracket matching for a trace against a stack of open function ids:
well-nestedness as the claim words it (every exit closes the innermost
open enter), with no depth or range restriction. -/
def matchedNest : List PEvent → List Int → Bool
  | [], st => st.isEmpty
  | PEvent.enter id _ _ :: tr, st => matchedNest tr (id :: st)
  | PEvent.exit id _ :: tr, st =>
      match st with
      | [] => false
      | top :: rest => decide (top = id) && matchedNest tr rest

/-- A complete well-nested trace (claim-level notion). -/
def wellNested (tr : List PEvent) : Bool := matchedNest tr []

/-- All event ids lie in `[0, MAX_FUNCTIONS)`. -/
def idsInRange (tr : List PEvent) : Bool :=
  tr.all (fun e =>
    match e with
    | PEvent.enter id _ _ => decide (0 ≤ id) && decide (id < MAX_FUNCTIONS)
    | PEvent.exit id _ => decide (0 ≤ id) && decide (id < MAX_FUNCTIONS))

/-- Well-nested, ids in range, and the nesting depth never exceeds
`MAX_CALL_DEPTH` (the strengthening needed for the call-count claim). -/
def nestOK : List PEvent → List Int → Bool
  | [], st => st.isEmpty
  | PEvent.enter id _ _ :: tr, st =>
      decide (0 ≤ id) && decide (id < MAX_FUNCTIONS) &&
        decide (st.length < MAX_CALL_DEPTH) && nestOK tr (id :: st)
  | PEvent.exit id _ :: tr, st =>
      match st with
      | [] => false
      | top :: rest => decide (top = id) && nestOK tr rest

/-- A well-nested in-range trace that nests 257 deep: one enter too many
for `MAX_CALL_DEPTH`. -/
def deepTrace : List PEvent :=
  List.replicate 257 (PEvent.enter 0 (some ['f']) 0) ++
    List.replicate 257 (PEvent.exit 0 0)

/-- The sample count written on a folded line:
`time_ns / 1000`, bumped to 1 when the division yields 0
(the sample is only visited when `time_ns != 0`). -/
def foldedCount (t : Nat) : Nat :=
  if t / 1000 = 0 then 1 else t / 1000

/-- The folded-output lines of `write_flame_graph_folded`, structurally:
one `(shape ids, sample count)` pair per stack sample with nonzero
accumulated time, in table order (`time_ns == 0` entries are skipped by
the `continue`). -/
def foldedEntries (g : ProfilerState) : List (List Int × Nat) :=
  (g.stack_samples.filter (fun s => decide (s.time_ns ≠ 0))).map
    (fun s => (s.func_ids, foldedCount s.time_ns))

/-- The name part of one folded line: the loop
`for j: if (name) { if (j > 0) fputc(΄;΄); fputs(name); }`,
with `j` the position in the full id list. -/
def foldedNamesAux (g : ProfilerState) : Nat → List Int → List Char
  | _, [] => []
  | j, id :: rest =>
      (match (g.profiles id).name with
       | some n => (if 0 < j then [';'] else []) ++ n
       | none => []) ++ foldedNamesAux g (j + 1) rest

/-- The complete name part of the folded line for a shape. -/
def foldedNames (g : ProfilerState) (ids : List Int) : List Char :=
  foldedNamesAux g 0 ids

/-- The registered names of the entries of a shape, in order
(unnamed entries dropped). -/
def namesOf (g : ProfilerState) (ids : List Int) : List (List Char) :=
  ids.filterMap (fun id => (g.profiles id).name)

/-- Concatenation of names, each preceded by a semicolon. -/
def prefixedJoin : List (List Char) → List Char
  | [] => []
  | n :: ns => ';' :: (n ++ prefixedJoin ns)

/-- Semicolon-join as the spec words it: names separated by single
semicolons, no leading or trailing separator. -/
def semiJoin : List (List Char) → List Char
  | [] => []
  | n :: ns => n ++ prefixedJoin ns

/-- Whether the emitted name part carries a leading semicolon: the
outermost entry is unnamed while some entry of the shape is named. -/
def leadingSemi (g : ProfilerState) (ids : List Int) : Bool :=
  match ids with
  | [] => false
  | id0 :: _ => ((g.profiles id0).name).isNone && !(namesOf g ids).isEmpty

/-- Character-list prefix test (the elementwise comparison `strstr`
performs at one haystack offset). -/
def isPfx : List Char → List Char → Bool
  | [], _ => true
  | _ :: _, [] => false
  | a :: as, b :: bs => decide (a = b) && isPfx as bs

/-- Index of the first occurrence of `needle` in `hay` (`strstr`). -/
def firstOccIdx (needle : List Char) : List Char → Option Nat
  | [] => if isPfx needle [] then some 0 else none
  | c :: t =>
      if isPfx needle (c :: t) then some 0
      else (firstOccIdx needle t).map (fun i => i + 1)

/-- The characters of ".json". -/
def jsonExt : List Char := ['.', 'j', 's', 'o', 'n']

/-- The characters of ".folded". -/
def foldedExt : List Char := ['.', 'f', 'o', 'l', 'd', 'e', 'd']

/-- The folded file path computed by `write_flame_graph_folded`:
copy the output path into a 1024-byte buffer (`strncpy`, at most 1023
chars), then `strcpy(ext, ".folded")` at the first occurrence of ".json"
(which truncates everything after it), else
`strncat(folded_path, ".folded", 1023 - strlen(folded_path))`.
(The C `strcpy` can overrun the buffer for paths longer than 1016 chars
whose ".json" sits near the end; byte effects of that undefined behavior
are not modelled.) -/
def foldedPathOf (output_path : List Char) : List Char :=
  match firstOccIdx jsonExt (output_path.take 1023) with
  | some i => (output_path.take 1023).take i ++ foldedExt
  | none => output_path.take 1023 ++ foldedExt.take (1023 - (output_path.take 1023).length)

/-- ".json" is a suffix of the path (5 trailing chars equal ".json"). -/
def endsWithJson (p : List Char) : Bool :=
  decide (5 ≤ p.length) && decide (p.drop (p.length - 5) = jsonExt)

/-- Modelled from the spec wording for comparison with the code:
"replace a .json suffix with .folded, or append .folded if no such
suffix". -/
def specFoldedPath (p : List Char) : List Char :=
  if endsWithJson p then p.take (p.length - 5) ++ foldedExt
  else p ++ foldedExt

/-- The ids the report loops iterate over: `for (i = 0; i < g_num_functions; i++)`
(empty when `g_num_functions` is not positive). -/
def reportIds (g : ProfilerState) : List Int :=
  (List.range g.num_functions.toNat).map Int.ofNat

/-- The functions appearing in the JSON `functions` array and in the
console table: ids below `g_num_functions` whose profile has a name
(both loops use the same bound and the same `name == NULL` skip). -/
def reportedFunctions (g : ProfilerState) : List Int :=
  (reportIds g).filter (fun i => ((g.profiles i).name).isSome)

/-- The total used for percentages in `konpeito_profile_finalize`:
sum of `total_time_ns` over named functions with id below
`g_num_functions`, in `uint64_t` arithmetic. -/
def totalTime (g : ProfilerState) : Nat :=
  (reportIds g).foldl
    (fun acc i =>
      if ((g.profiles i).name).isSome then (acc + (g.profiles i).total_time_ns) % U64MOD
      else acc) 0

/-- A freshly initialized state (used by concrete witnesses). -/
def gInit : ProfilerState := konpeito_profile_init initialState 10 none

/-- A state whose function 1 is named "a" and whose other functions are
unnamed (used by the folded-name counterexample). -/
def gNames : ProfilerState :=
  { profiles := fun i =>
      if i = 1 then { name := some ['a'], call_count := 0, total_time_ns := 0 }
      else { name := none, call_count := 0, total_time_ns := 0 }
    num_functions := 2
    output_path := []
    initialized := true
    stack_samples := [] }

/-- A state with one nonzero and one zero stack sample (used by the
folded-output witness). -/
def gSamples : ProfilerState :=
  { gNames with stack_samples := [{ func_ids := [0], time_ns := 500 },
                                  { func_ids := [1], time_ns := 0 }] }

/-- The profile update a matched exit performs:
`total_time_ns += elapsed` in `uint64_t` arithmetic. -/
def addTimeProfile (p : FunctionProfile) (e : Nat) : FunctionProfile :=
  { p with total_time_ns := (p.total_time_ns + e) % U64MOD }

/-- The profile update an accepted enter performs: register the name if
none is set, `call_count++` in `uint64_t` arithmetic. -/
def enterProfile (p : FunctionProfile) (nm : Option CStr) : FunctionProfile :=
  { name := (match p.name with
             | none => nm
             | some n => some n)
    call_count := (p.call_count + 1) % U64MOD
    total_time_ns := p.total_time_ns }

theorem range_guard_false {id : Int} (h0 : 0 ≤ id) (hlt : id < MAX_FUNCTIONS) :
    ¬(id < 0 ∨ MAX_FUNCTIONS ≤ id) := by
  rintro (h | h)
  · exact absurd h0 (not_le.mpr h)
  · exact absurd hlt (not_lt.mpr h)

theorem record_stack_time_profiles (g : ProfilerState) (tls : List CallStackEntry)
    (t : Nat) : (record_stack_time g tls t).profiles = g.profiles := by
  unfold record_stack_time
  split <;> rfl

theorem record_stack_time_initialized_eq (g : ProfilerState) (tls : List CallStackEntry)
    (t : Nat) : (record_stack_time g tls t).initialized = g.initialized := by
  unfold record_stack_time
  split <;> rfl

theorem record_stack_time_num_functions (g : ProfilerState) (tls : List CallStackEntry)
    (t : Nat) : (record_stack_time g tls t).num_functions = g.num_functions := by
  unfold record_stack_time
  split <;> rfl

/-- An enter that passes all three guards pushes a frame and updates the
profile of its function. -/
theorem enter_push_eq (g : ProfilerState) (tls : List CallStackEntry)
    (id : Int) (nm : Option CStr) (now : Nat)
    (hinit : g.initialized = true) (h0 : 0 ≤ id) (hlt : id < MAX_FUNCTIONS)
    (hdep : tls.length < MAX_CALL_DEPTH) :
    konpeito_profile_enter g tls id nm now
      = ({ g with profiles := Function.update g.profiles id (enterProfile (g.profiles id) nm) },
         { func_id := id, entry_time := now } :: tls) := by
  unfold konpeito_profile_enter
  rw [if_neg (by simp [hinit]), if_neg (range_guard_false h0 hlt),
    if_neg (not_le.mpr hdep)]
  rfl

/-- An exit whose id matches the top frame adds the elapsed time to that
function, records it for the current stack shape, and pops the frame. -/
theorem exit_match_eq (g : ProfilerState) (top : CallStackEntry)
    (rest : List CallStackEntry) (id : Int) (now : Nat)
    (hinit : g.initialized = true) (h0 : 0 ≤ id) (hlt : id < MAX_FUNCTIONS)
    (htop : top.func_id = id) :
    konpeito_profile_exit g (top :: rest) id now
      = (record_stack_time
          ({ g with profiles := Function.update g.profiles id (addTimeProfile (g.profiles id) (sub64 now top.entry_time)) })
          (top :: rest) (sub64 now top.entry_time), rest) := by
  unfold konpeito_profile_exit
  rw [if_neg (by simp [hinit]), if_neg (range_guard_false h0 hlt)]
  dsimp only
  rw [if_pos htop]
  rfl

/-- An enter finding the thread stack at (or beyond) the maximum depth
leaves the global state and the stack untouched. -/
theorem enter_at_max_noop (g : ProfilerState) (tls : List CallStackEntry)
    (id : Int) (nm : Option CStr) (now : Nat)
    (hdep : MAX_CALL_DEPTH ≤ tls.length) :
    konpeito_profile_enter g tls id nm now = (g, tls) := by
  unfold konpeito_profile_enter
  split_ifs with h1 h2
  · rfl
  · rfl
  · rfl

/-- C9: `konpeito_profile_init` is idempotent: a second call (with any
arguments) after a first call is a no-op, leaving the whole global state —
configured function count, output path, function table and sample table —
unchanged, because the first call sets `g_initialized` and the guard
returns immediately. -/
theorem init_idempotent (g : ProfilerState) (n1 n2 : Int) (p1 p2 : Option CStr) :
    konpeito_profile_init (konpeito_profile_init g n1 p1) n2 p2
      = konpeito_profile_init g n1 p1 := by
  by_cases h : g.initialized
  · simp [konpeito_profile_init, h]
  · simp [konpeito_profile_init, h]

/-- C2 (amended): a mismatched exit — runtime initialized, `f` in range,
stack non-empty, top frame id different from `f` — leaves the whole
global state (so every cumulative time and every stack sample) unchanged
and pops exactly the top frame. -/
theorem exit_mismatch_pops_one (g : ProfilerState) (top : CallStackEntry)
    (rest : List CallStackEntry) (id : Int) (now : Nat)
    (hinit : g.initialized = true) (h0 : 0 ≤ id) (hlt : id < MAX_FUNCTIONS)
    (hne : top.func_id ≠ id) :
    konpeito_profile_exit g (top :: rest) id now = (g, rest) := by
  unfold konpeito_profile_exit
  rw [if_neg (by simp [hinit]), if_neg (range_guard_false h0 hlt)]
  exact if_neg hne

/-- Witness for the amended C2 at a concrete state. -/
theorem exit_mismatch_pops_one_ex :
    konpeito_profile_exit gInit [{ func_id := 2, entry_time := 0 }] 3 7 = (gInit, []) :=
  exit_mismatch_pops_one gInit { func_id := 2, entry_time := 0 } [] 3 7
    (by rfl) (by decide) (by decide) (by decide)

/-- C2 counterexample to the claim as stated: an exit with an
out-of-range id (4096) while the stack is non-empty and mismatched is a
complete no-op — no frame is popped, contradicting "exactly one frame is
popped". -/
theorem exit_mismatch_cex :
    (konpeito_profile_exit gInit [{ func_id := 0, entry_time := 0 }] 4096 5).2
        = [{ func_id := 0, entry_time := 0 }]
      ∧ ({ func_id := 0, entry_time := 0 } : CallStackEntry).func_id ≠ 4096 := by
  decide

/-- C5: with the thread stack at the maximum depth, any further enter
leaves the global state and the stack completely unchanged; and a
matched exit (initialized, id in range, top frame holds the same id)
pops exactly the top frame, adds the elapsed time `now - entry_time`
to that function, and changes no other function profile. -/
theorem deep_enter_drop_exits_resolve :
    (∀ (g : ProfilerState) (tls : List CallStackEntry) (id : Int)
        (nm : Option CStr) (now : Nat),
        tls.length = MAX_CALL_DEPTH →
        konpeito_profile_enter g tls id nm now = (g, tls))
    ∧ (∀ (g : ProfilerState) (rest : List CallStackEntry) (id : Int) (t0 now : Nat),
        g.initialized = true → 0 ≤ id → id < MAX_FUNCTIONS →
        ((konpeito_profile_exit g ({ func_id := id, entry_time := t0 } :: rest) id now).2 = rest
          ∧ (((konpeito_profile_exit g ({ func_id := id, entry_time := t0 } :: rest) id now).1.profiles id).total_time_ns
              = ((g.profiles id).total_time_ns + sub64 now t0) % U64MOD)
          ∧ ∀ f, f ≠ id →
              (konpeito_profile_exit g ({ func_id := id, entry_time := t0 } :: rest) id now).1.profiles f
                = g.profiles f)) := by
  constructor
  · intro g tls id nm now hlen
    exact enter_at_max_noop g tls id nm now (le_of_eq hlen.symm)
  · intro g rest id t0 now hinit h0 hlt
    have hstep := exit_match_eq g { func_id := id, entry_time := t0 } rest id now
      hinit h0 hlt rfl
    refine ⟨by rw [hstep], ?_, ?_⟩
    · rw [hstep]
      dsimp only
      rw [record_stack_time_profiles]
      dsimp only
      rw [Function.update_same]
      rfl
    · intro f hf
      rw [hstep]
      dsimp only
      rw [record_stack_time_profiles]
      dsimp only
      rw [Function.update_noteq hf]

/-- Witness for C5 at concrete inputs: a 256-deep stack rejects an enter
unchanged, and a matched exit pops its frame. -/
theorem deep_enter_drop_exits_resolve_ex :
    konpeito_profile_enter gInit (List.replicate 256 { func_id := 0, entry_time := 0 }) 1 none 5
        = (gInit, List.replicate 256 { func_id := 0, entry_time := 0 })
      ∧ (konpeito_profile_exit gInit [{ func_id := 0, entry_time := 0 }] 0 7).2 = [] :=
  ⟨deep_enter_drop_exits_resolve.1 gInit _ 1 none 5 (by rw [List.length_replicate]; rfl),
   (deep_enter_drop_exits_resolve.2 gInit [] 0 0 7 (by rfl) (by decide) (by decide)).1⟩

theorem findSampleIdx_eq_none {S : List StackSample} {sh : List Int}
    (h : ∀ s ∈ S, s.func_ids ≠ sh) : findSampleIdx S sh = none := by
  induction S with
  | nil => rfl
  | cons s rest ih =>
      unfold findSampleIdx
      rw [if_neg (h s (List.mem_cons_self s rest)),
        ih (fun x hx => h x (List.mem_cons_of_mem s hx))]
      rfl

/-- C4: when the sample table already holds `MAX_STACK_SAMPLES` samples
and time is attributed to a shape not present in the table, the update is
dropped and the table — every sample with its shape and accumulated time
— is left exactly as it was. -/
theorem recordShapeTime_full (S : List StackSample) (sh : List Int) (v : Nat)
    (hfull : S.length = MAX_STACK_SAMPLES) (hnew : ∀ s ∈ S, s.func_ids ≠ sh) :
    recordShapeTime S sh v = S := by
  unfold recordShapeTime find_or_create_stack_sample
  rw [findSampleIdx_eq_none hnew]
  dsimp only
  rw [if_pos (le_of_eq hfull.symm)]

/-- Witness for C4: a full table of 65536 samples of shape [1] drops an
update for the fresh shape [0]. -/
theorem recordShapeTime_full_ex :
    recordShapeTime (List.replicate MAX_STACK_SAMPLES { func_ids := [1], time_ns := 0 }) [0] 5
      = List.replicate MAX_STACK_SAMPLES { func_ids := [1], time_ns := 0 } :=
  recordShapeTime_full _ _ _ (by simp)
    (by
      intro s hs
      rw [List.eq_of_mem_replicate hs]
      decide)

theorem addTimeAt_length (S : List StackSample) (i t : Nat) :
    (addTimeAt S i t).length = S.length := by
  induction S generalizing i with
  | nil => rfl
  | cons s rest ih =>
      cases i with
      | zero => rfl
      | succ j => simp [addTimeAt, ih]

theorem addTimeAt_append (S : List StackSample) (x : StackSample) (t : Nat) :
    addTimeAt (S ++ [x]) S.length t
      = S ++ [{ x with time_ns := (x.time_ns + t) % U64MOD }] := by
  induction S with
  | nil => rfl
  | cons s rest ih => simp [addTimeAt, ih]

theorem findSampleIdx_append_match {S : List StackSample} {sh : List Int}
    (hnew : ∀ s ∈ S, s.func_ids ≠ sh) (x : StackSample) (hx : x.func_ids = sh) :
    findSampleIdx (S ++ [x]) sh = some S.length := by
  induction S with
  | nil => simp [findSampleIdx, hx]
  | cons s rest ih =>
      rw [List.cons_append]
      unfold findSampleIdx
      rw [if_neg (hnew s (List.mem_cons_self s rest)),
        ih (fun y hy => hnew y (List.mem_cons_of_mem s hy))]
      rfl

theorem filter_none_of_no_match {S : List StackSample} {sh : List Int}
    (h : ∀ s ∈ S, s.func_ids ≠ sh) :
    S.filter (fun s => decide (s.func_ids = sh)) = [] := by
  induction S with
  | nil => rfl
  | cons s rest ih =>
      have hs : decide (s.func_ids = sh) = false :=
        decide_eq_false (h s (List.mem_cons_self s rest))
      simp [List.filter_cons, hs, ih (fun y hy => h y (List.mem_cons_of_mem s hy))]

theorem findSampleIdx_some_of_mem {T : List StackSample} {sh : List Int}
    {s : StackSample} (hs : s ∈ T) (hsh : s.func_ids = sh) :
    ∃ j, findSampleIdx T sh = some j := by
  induction T with
  | nil => cases hs
  | cons t rest ih =>
      by_cases hc : t.func_ids = sh
      · exact ⟨0, by unfold findSampleIdx; rw [if_pos hc]⟩
      · have hmem : s ∈ rest := by
          cases List.mem_cons.mp hs with
          | inl h => exact absurd (h ▸ hsh) hc
          | inr h => exact h
        obtain ⟨j, hj⟩ := ih hmem
        exact ⟨j + 1, by unfold findSampleIdx; rw [if_neg hc, hj]; rfl⟩

/-- C3: attributing the same elapsed value `v` twice to the same fresh
shape (not in the table, one slot free, no 64-bit overflow) yields a
table extended by exactly one sample for that shape with accumulated time
`2 * v`; and attributing time to a shape already present never changes
the number of samples (no duplicate is ever created). -/
theorem stack_sample_idempotent (S : List StackSample) (sh : List Int) (v : Nat)
    (hcap : S.length < MAX_STACK_SAMPLES)
    (hnew : ∀ s ∈ S, s.func_ids ≠ sh)
    (hv : 2 * v < U64MOD) :
    (recordShapeTime (recordShapeTime S sh v) sh v
        = S ++ [{ func_ids := sh, time_ns := 2 * v }])
    ∧ ((recordShapeTime (recordShapeTime S sh v) sh v).filter
          (fun s => decide (s.func_ids = sh))).length = 1
    ∧ ∀ (T : List StackSample) (w : Nat), (∃ s ∈ T, s.func_ids = sh) →
        (recordShapeTime T sh w).length = T.length := by
  have hvM : v < U64MOD := by omega
  have step1 : recordShapeTime S sh v = S ++ [{ func_ids := sh, time_ns := v }] := by
    unfold recordShapeTime find_or_create_stack_sample
    rw [findSampleIdx_eq_none hnew]
    dsimp only
    rw [if_neg (not_le.mpr hcap)]
    dsimp only
    rw [addTimeAt_append]
    dsimp only
    rw [Nat.zero_add, Nat.mod_eq_of_lt hvM]
  have step2 : recordShapeTime (S ++ [{ func_ids := sh, time_ns := v }]) sh v
      = S ++ [{ func_ids := sh, time_ns := 2 * v }] := by
    unfold recordShapeTime find_or_create_stack_sample
    rw [findSampleIdx_append_match hnew _ rfl]
    dsimp only
    rw [addTimeAt_append]
    dsimp only
    rw [Nat.mod_eq_of_lt (by omega : v + v < U64MOD), two_mul]
  have hmain : recordShapeTime (recordShapeTime S sh v) sh v
      = S ++ [{ func_ids := sh, time_ns := 2 * v }] := by
    rw [step1, step2]
  refine ⟨hmain, ?_, ?_⟩
  · rw [hmain]
    simp [List.filter_append, filter_none_of_no_match hnew]
  · rintro T w ⟨s, hs, hsh⟩
    obtain ⟨j, hj⟩ := findSampleIdx_some_of_mem hs hsh
    unfold recordShapeTime find_or_create_stack_sample
    rw [hj]
    dsimp only
    exact addTimeAt_length T j w

/-- Witness for C3: two attributions of 3 ns to the fresh shape [0] in an
empty table create one sample with 6 ns. -/
theorem stack_sample_idempotent_ex :
    recordShapeTime (recordShapeTime [] [0] 3) [0] 3
      = [{ func_ids := [0], time_ns := 6 }] :=
  (stack_sample_idempotent [] [0] 3 (by decide) (by decide) (by decide)).1

/-- C6: every folded output line comes from a stack sample with nonzero
accumulated time (zero-time samples are skipped, so lines and nonzero
samples are in bijection), and its count is the nanoseconds
floor-divided by 1000, replaced by 1 when that division yields 0; the
count is always at least 1. -/
theorem folded_counts (g : ProfilerState) :
    (∀ e ∈ foldedEntries g, ∃ s ∈ g.stack_samples, s.time_ns ≠ 0 ∧
        e.1 = s.func_ids ∧
        e.2 = (if s.time_ns / 1000 = 0 then 1 else s.time_ns / 1000) ∧ 1 ≤ e.2)
    ∧ (∀ s ∈ g.stack_samples, s.time_ns ≠ 0 →
        (s.func_ids, foldedCount s.time_ns) ∈ foldedEntries g)
    ∧ (foldedEntries g).length
        = (g.stack_samples.filter (fun s => decide (s.time_ns ≠ 0))).length := by
  refine ⟨?_, ?_, ?_⟩
  · intro e he
    unfold foldedEntries at he
    obtain ⟨s, hs, rfl⟩ := List.mem_map.mp he
    have hmem := List.mem_filter.mp hs
    have hne : s.time_ns ≠ 0 := by simpa using hmem.2
    refine ⟨s, hmem.1, hne, rfl, rfl, ?_⟩
    unfold foldedCount
    split
    · exact le_refl 1
    · next h => exact Nat.one_le_iff_ne_zero.mpr h
  · intro s hs hne
    unfold foldedEntries
    exact List.mem_map.mpr ⟨s, List.mem_filter.mpr ⟨hs, by simpa using hne⟩, rfl⟩
  · unfold foldedEntries
    simp

/-- Witness for C6: the 500 ns sample of `gSamples` yields the folded
line entry `([0], 1)` (500/1000 = 0 is bumped to 1). -/
theorem folded_counts_ex :
    ([0], 1) ∈ foldedEntries gSamples :=
  (folded_counts gSamples).2.1 { func_ids := [0], time_ns := 500 } (by decide) (by decide)

theorem foldedNamesAux_pos (g : ProfilerState) (ids : List Int) :
    ∀ j, 0 < j → foldedNamesAux g j ids = prefixedJoin (namesOf g ids) := by
  induction ids with
  | nil => intro j hj; rfl
  | cons id rest ih =>
      intro j hj
      unfold foldedNamesAux
      cases hn : (g.profiles id).name with
      | none =>
          rw [ih (j + 1) (by omega)]
          unfold namesOf
          rw [List.filterMap_cons]
          simp [hn]
      | some n =>
          rw [if_pos hj, ih (j + 1) (by omega)]
          unfold namesOf
          rw [List.filterMap_cons]
          simp [hn, prefixedJoin]

/-- C8 (amended): the name part of a folded line is the semicolon-join
of the registered names of the shape, except that every named entry at a
position after the first stack entry brings its own preceding semicolon:
when the outermost entry is unnamed while a later entry is named, the
line starts with a stray leading semicolon (`leadingSemi`). -/
theorem folded_names_join (g : ProfilerState) (ids : List Int) :
    foldedNames g ids
      = (if leadingSemi g ids then [';'] else []) ++ semiJoin (namesOf g ids) := by
  cases ids with
  | nil => rfl
  | cons id0 rest =>
      unfold foldedNames foldedNamesAux
      rw [foldedNamesAux_pos g rest 1 (by omega)]
      cases hn : (g.profiles id0).name with
      | some n0 =>
          unfold leadingSemi
          have hnames : namesOf g (id0 :: rest) = n0 :: namesOf g rest := by
            unfold namesOf
            rw [List.filterMap_cons]
            simp [hn]
          rw [hnames]
          simp [hn, semiJoin]
      | none =>
          unfold leadingSemi
          have hnames : namesOf g (id0 :: rest) = namesOf g rest := by
            unfold namesOf
            rw [List.filterMap_cons]
            simp [hn]
          rw [hnames]
          cases hcase : namesOf g rest with
          | nil => simp [hn, hcase, semiJoin, prefixedJoin]
          | cons m ms => simp [hn, hcase, semiJoin, prefixedJoin]

/-- C8 counterexample to the claim as stated: with the outermost entry
unnamed and function 1 named "a", the emitted name part is ";a", not the
plain semicolon-join "a" — an extra leading separator appears. -/
theorem folded_names_cex :
    foldedNames gNames [0, 1] = [';', 'a']
      ∧ semiJoin (namesOf gNames [0, 1]) = ['a']
      ∧ foldedNames gNames [0, 1] ≠ semiJoin (namesOf gNames [0, 1]) := by
  decide

theorem take_of_len_le {α : Type} {l : List α} {n : Nat} (h : l.length ≤ n) :
    l.take n = l := by
  induction l generalizing n with
  | nil => simp
  | cons a as ih =>
      cases n with
      | zero => simp at h
      | succ m => rw [List.take_succ_cons, ih (by simpa using h)]

theorem isPfx_refl (a : List Char) : isPfx a a = true := by
  induction a with
  | nil => rfl
  | cons x xs ih => simp [isPfx, ih]

theorem isPfx_length {a b : List Char} (h : isPfx a b = true) :
    a.length ≤ b.length := by
  induction a generalizing b with
  | nil => simp
  | cons x xs ih =>
      cases b with
      | nil => simp [isPfx] at h
      | cons y ys =>
          simp only [isPfx, Bool.and_eq_true, decide_eq_true_eq] at h
          simpa using ih h.2

theorem isPfx_eq_of_length {a b : List Char} (h : isPfx a b = true)
    (hlen : b.length ≤ a.length) : a = b := by
  induction a generalizing b with
  | nil =>
      cases b with
      | nil => rfl
      | cons y ys => simp at hlen
  | cons x xs ih =>
      cases b with
      | nil => simp [isPfx] at h
      | cons y ys =>
          simp only [isPfx, Bool.and_eq_true, decide_eq_true_eq] at h
          rw [h.1, ih h.2 (by simpa using hlen)]

theorem firstOccIdx_isPfx {needle hay : List Char} {i : Nat}
    (h : firstOccIdx needle hay = some i) : isPfx needle (hay.drop i) = true := by
  induction hay generalizing i with
  | nil =>
      unfold firstOccIdx at h
      split at h
      · next hp =>
          obtain rfl : (0 : Nat) = i := Option.some.inj h
          simpa using hp
      · cases h
  | cons c t ih =>
      unfold firstOccIdx at h
      split at h
      · next hp =>
          obtain rfl : (0 : Nat) = i := Option.some.inj h
          simpa using hp
      · next hp =>
          cases hfo : firstOccIdx needle t with
          | none => rw [hfo] at h; cases h
          | some j =>
              rw [hfo] at h
              have hji : j + 1 = i := by simpa using h
              subst hji
              simpa [List.drop_succ_cons] using ih hfo

theorem firstOccIdx_of_drop {needle : List Char} :
    ∀ (hay : List Char) (i : Nat),
      isPfx needle (hay.drop i) = true → firstOccIdx needle hay ≠ none := by
  intro hay
  induction hay with
  | nil =>
      intro i h
      rw [List.drop_nil] at h
      unfold firstOccIdx
      rw [if_pos h]
      simp
  | cons c t ih =>
      intro i h
      unfold firstOccIdx
      by_cases hp : isPfx needle (c :: t) = true
      · rw [if_pos hp]; simp
      · rw [if_neg hp]
        cases i with
        | zero => rw [List.drop_zero] at h; exact absurd h hp
        | succ j =>
            rw [List.drop_succ_cons] at h
            cases hfo : firstOccIdx needle t with
            | none => exact absurd hfo (ih j h)
            | some k => simp

/-- C7 (amended): the folded path equals the spec derivation (replace a
`.json` suffix with `.folded`, else append `.folded`) provided `.json`
occurs in the output path only as a suffix, if at all, and the path is
short enough (at most 1016 chars) that the `strncat` truncation cannot
bite; the code actually rewrites from the first occurrence of `.json`
anywhere in the path. -/
theorem folded_path_suffix (p : List Char)
    (hlen : p.length ≤ 1016)
    (hocc : firstOccIdx jsonExt p = none
        ∨ firstOccIdx jsonExt p = some (p.length - 5)) :
    foldedPathOf p = specFoldedPath p := by
  have hbase : p.take 1023 = p := take_of_len_le (by omega)
  unfold foldedPathOf
  rw [hbase]
  rcases hocc with hnone | hsome
  · rw [hnone]
    dsimp only
    have h7 : foldedExt.take (1023 - p.length) = foldedExt :=
      take_of_len_le (by simp [foldedExt]; omega)
    rw [h7]
    unfold specFoldedPath
    rw [if_neg ?hne]
    case hne =>
      intro hej
      unfold endsWithJson at hej
      simp only [Bool.and_eq_true, decide_eq_true_eq] at hej
      have hdropeq : p.drop (p.length - 5) = jsonExt := hej.2
      have hpfx : isPfx jsonExt (p.drop (p.length - 5)) = true := by
        rw [hdropeq]; exact isPfx_refl jsonExt
      exact firstOccIdx_of_drop p _ hpfx hnone
  · rw [hsome]
    dsimp only
    have hpfx := firstOccIdx_isPfx hsome
    have hlen5 := isPfx_length hpfx
    rw [List.length_drop] at hlen5
    have hj : jsonExt.length = 5 := by simp [jsonExt]
    rw [hj] at hlen5
    have h5 : 5 ≤ p.length := by omega
    have hdropeq : p.drop (p.length - 5) = jsonExt := by
      refine (isPfx_eq_of_length hpfx ?_).symm
      rw [List.length_drop, hj]
      omega
    unfold specFoldedPath
    rw [if_pos (show endsWithJson p = true by simp [endsWithJson, h5, hdropeq])]

/-- Witness for the amended C7: a path that ends in ".json". -/
theorem folded_path_suffix_ex :
    foldedPathOf "out.json".data = specFoldedPath "out.json".data :=
  folded_path_suffix _ (by decide) (Or.inr (by decide))

/-- C7 counterexample to the claim as stated: for the path "x.json.bak"
(no `.json` suffix, so the claim demands "x.json.bak.folded") the code
rewrites from the embedded ".json" and produces "x.folded". -/
theorem folded_path_cex :
    foldedPathOf "x.json.bak".data = "x.folded".data
      ∧ specFoldedPath "x.json.bak".data = "x.json.bak.folded".data
      ∧ foldedPathOf "x.json.bak".data ≠ specFoldedPath "x.json.bak".data := by
  decide

theorem foldl_congr_mem {α β : Type} (l : List α) (f f' : β → α → β) (b : β)
    (h : ∀ a ∈ l, ∀ acc, f acc a = f' acc a) : l.foldl f b = l.foldl f' b := by
  induction l generalizing b with
  | nil => rfl
  | cons x xs ih =>
      rw [List.foldl_cons, List.foldl_cons, h x (List.mem_cons_self x xs)]
      exact ih _ (fun a ha acc => h a (List.mem_cons_of_mem x ha) acc)

theorem mem_reportIds_lt {g : ProfilerState} {i : Int} (h : i ∈ reportIds g) :
    i < g.num_functions := by
  unfold reportIds at h
  obtain ⟨k, hk, rfl⟩ := List.mem_map.mp h
  rw [List.mem_range] at hk
  rw [Int.ofNat_eq_coe]
  omega

theorem not_reported {g : ProfilerState} {id : Int} (h : g.num_functions ≤ id) :
    id ∉ reportedFunctions g := by
  intro hmem
  unfold reportedFunctions at hmem
  have hin := List.mem_filter.mp hmem
  exact absurd (mem_reportIds_lt hin.1) (not_lt.mpr h)

theorem totalTime_eq_of_fields {g g' : ProfilerState}
    (hn : g'.num_functions = g.num_functions)
    (hp : ∀ i, i < g.num_functions → g'.profiles i = g.profiles i) :
    totalTime g' = totalTime g := by
  unfold totalTime reportIds
  rw [hn]
  refine foldl_congr_mem _ _ _ _ ?_
  intro a ha acc
  have halt : a < g.num_functions := by
    obtain ⟨k, hk, rfl⟩ := List.mem_map.mp ha
    rw [List.mem_range] at hk
    rw [Int.ofNat_eq_coe]
    omega
  rw [hp a halt]

/-- C10: a function id at least `g_num_functions` but below the
compile-time capacity 4096 is still accepted by enter (its call count is
incremented) and by a matched exit (its elapsed time is accumulated), yet
it never appears among the reported functions — the JSON array and the
console table iterate the same id range with the same name filter — and
neither operation changes the total-time sum, which ranges only over ids
below `g_num_functions`. -/
theorem out_of_report_ids (g : ProfilerState) (tls : List CallStackEntry)
    (id : Int) (nm : Option CStr) (now : Nat)
    (hinit : g.initialized = true) (h0 : 0 ≤ id)
    (hge : g.num_functions ≤ id) (hlt : id < MAX_FUNCTIONS)
    (hdep : tls.length < MAX_CALL_DEPTH) :
    (((konpeito_profile_enter g tls id nm now).1.profiles id).call_count
        = ((g.profiles id).call_count + 1) % U64MOD)
    ∧ (∀ (rest : List CallStackEntry) (t0 now2 : Nat),
        ((konpeito_profile_exit g ({ func_id := id, entry_time := t0 } :: rest) id now2).1.profiles id).total_time_ns
          = ((g.profiles id).total_time_ns + sub64 now2 t0) % U64MOD)
    ∧ id ∉ reportedFunctions g
    ∧ totalTime (konpeito_profile_enter g tls id nm now).1 = totalTime g
    ∧ (∀ (rest : List CallStackEntry) (t0 now2 : Nat),
        totalTime (konpeito_profile_exit g ({ func_id := id, entry_time := t0 } :: rest) id now2).1
          = totalTime g) := by
  have henter := enter_push_eq g tls id nm now hinit h0 hlt hdep
  refine ⟨?_, ?_, not_reported hge, ?_, ?_⟩
  · rw [henter]
    dsimp only
    rw [Function.update_same]
    rfl
  · intro rest t0 now2
    rw [exit_match_eq g { func_id := id, entry_time := t0 } rest id now2 hinit h0 hlt rfl]
    dsimp only
    rw [record_stack_time_profiles]
    dsimp only
    rw [Function.update_same]
    rfl
  · rw [henter]
    dsimp only
    refine totalTime_eq_of_fields rfl ?_
    intro i hi
    dsimp only
    rw [Function.update_noteq (by omega : i ≠ id)]
  · intro rest t0 now2
    rw [exit_match_eq g { func_id := id, entry_time := t0 } rest id now2 hinit h0 hlt rfl]
    dsimp only
    have h1 : totalTime (record_stack_time
        ({ g with profiles := Function.update g.profiles id (addTimeProfile (g.profiles id) (sub64 now2 t0)) })
        ({ func_id := id, entry_time := t0 } :: rest) (sub64 now2 t0))
        = totalTime ({ g with profiles := Function.update g.profiles id (addTimeProfile (g.profiles id) (sub64 now2 t0)) }) := by
      refine totalTime_eq_of_fields (record_stack_time_num_functions _ _ _) ?_
      intro i hi
      rw [record_stack_time_profiles]
    rw [h1]
    refine totalTime_eq_of_fields rfl ?_
    intro i hi
    dsimp only
    rw [Function.update_noteq (by omega : i ≠ id)]

/-- Witness for C10: in a state configured for 2 functions, id 5 is
counted by enter but absent from the report range. -/
theorem out_of_report_ids_ex :
    (((konpeito_profile_enter gNames [] 5 none 3).1.profiles 5).call_count = 1)
      ∧ (5 : Int) ∉ reportedFunctions gNames :=
  ⟨(out_of_report_ids gNames [] 5 none 3 (by rfl) (by decide) (by decide)
      (by decide) (by decide)).1,
   (out_of_report_ids gNames [] 5 none 3 (by rfl) (by decide) (by decide)
      (by decide) (by decide)).2.2.1⟩

theorem countEnter_cons_enter (f id : Int) (nm : Option CStr) (now : Nat)
    (tr : List PEvent) :
    countEnter f (PEvent.enter id nm now :: tr)
      = (if id = f then 1 else 0) + countEnter f tr := rfl

theorem countEnter_cons_exit (f id : Int) (now : Nat) (tr : List PEvent) :
    countEnter f (PEvent.exit id now :: tr) = countEnter f tr := rfl

theorem exitState_call_count (g : ProfilerState) (id f : Int) (e : Nat) :
    ((Function.update g.profiles id (addTimeProfile (g.profiles id) e)) f).call_count
      = (g.profiles f).call_count := by
  by_cases hf : f = id
  · subst hf
    rw [Function.update_same]
    rfl
  · rw [Function.update_noteq hf]

theorem runTrace_call_count (tr : List PEvent) :
    ∀ (st : List Int) (g : ProfilerState) (tls : List CallStackEntry) (f : Int),
      g.initialized = true →
      tls.map (fun e => e.func_id) = st →
      (∀ x ∈ st, 0 ≤ x ∧ x < MAX_FUNCTIONS) →
      nestOK tr st = true →
      (g.profiles f).call_count < U64MOD →
      ((runTrace (g, tls) tr).1.profiles f).call_count
        = ((g.profiles f).call_count + countEnter f tr) % U64MOD := by
  induction tr with
  | nil =>
      intro st g tls f hinit hmap hrange hnest hcc
      simp [runTrace, countEnter, Nat.mod_eq_of_lt hcc]
  | cons e tr ih =>
      cases e with
      | enter id nm now =>
          intro st g tls f hinit hmap hrange hnest hcc
          unfold nestOK at hnest
          simp only [Bool.and_eq_true, decide_eq_true_eq] at hnest
          obtain ⟨⟨⟨h0, hlt⟩, hdep⟩, hnest'⟩ := hnest
          have hlen : tls.length < MAX_CALL_DEPTH := by
            have : tls.length = st.length := by rw [← hmap, List.length_map]
            omega
          have hstep := enter_push_eq g tls id nm now hinit h0 hlt hlen
          unfold runTrace
          dsimp only
          rw [hstep]
          rw [ih (id :: st)
            ({ g with profiles := Function.update g.profiles id (enterProfile (g.profiles id) nm) })
            ({ func_id := id, entry_time := now } :: tls) f hinit
            (by simp [hmap])
            (by
              intro x hx
              cases List.mem_cons.mp hx with
              | inl h => exact h ▸ ⟨h0, hlt⟩
              | inr h => exact hrange x h)
            hnest'
            (by
              dsimp only
              by_cases hf : f = id
              · subst hf
                rw [Function.update_same]
                exact Nat.mod_lt _ (by decide)
              · rw [Function.update_noteq hf]
                exact hcc)]
          dsimp only
          rw [countEnter_cons_enter]
          by_cases hf : id = f
          · subst hf
            rw [Function.update_same, if_pos rfl]
            simp only [enterProfile]
            rw [Nat.mod_add_mod, Nat.add_assoc]
          · rw [Function.update_noteq (fun h => hf h.symm), if_neg hf, Nat.zero_add]
      | exit id now =>
          intro st g tls f hinit hmap hrange hnest hcc
          cases st with
          | nil => simp [nestOK] at hnest
          | cons top rest =>
              unfold nestOK at hnest
              simp only [Bool.and_eq_true, decide_eq_true_eq] at hnest
              obtain ⟨htop, hnest'⟩ := hnest
              cases tls with
              | nil => simp at hmap
              | cons e0 tls' =>
                  simp only [List.map_cons, List.cons.injEq] at hmap
                  obtain ⟨hef, hmap'⟩ := hmap
                  have hrtop := hrange top (List.mem_cons_self top rest)
                  have h0 : 0 ≤ id := htop ▸ hrtop.1
                  have hlt : id < MAX_FUNCTIONS := htop ▸ hrtop.2
                  have hid : e0.func_id = id := by rw [hef, htop]
                  have hstep := exit_match_eq g e0 tls' id now hinit h0 hlt hid
                  unfold runTrace
                  dsimp only
                  rw [hstep]
                  rw [ih rest
                    (record_stack_time
                      ({ g with profiles := Function.update g.profiles id (addTimeProfile (g.profiles id) (sub64 now e0.entry_time)) })
                      (e0 :: tls') (sub64 now e0.entry_time))
                    tls' f
                    (by rw [record_stack_time_initialized_eq]; exact hinit)
                    hmap'
                    (fun x hx => hrange x (List.mem_cons_of_mem top hx))
                    hnest'
                    (by
                      rw [record_stack_time_profiles]
                      dsimp only
                      rw [exitState_call_count]
                      exact hcc)]
                  rw [record_stack_time_profiles]
                  dsimp only
                  rw [exitState_call_count, countEnter_cons_exit]

/-- C1 (amended): for every well-nested single-thread trace after
initialization whose function ids are in range, whose nesting depth never
exceeds `MAX_CALL_DEPTH` (256), and whose enter count for `f` is below
2^64, the recorded call count of `f` equals the number of `enter(f, …)`
events — the traces quantify over arbitrary clock values, so the count is
independent of elapsed time. -/
theorem call_count_matches_enters (n : Int) (pth : Option CStr)
    (tr : List PEvent) (f : Int)
    (hnest : nestOK tr [] = true) (hcnt : countEnter f tr < U64MOD) :
    ((runTrace (konpeito_profile_init initialState n pth, []) tr).1.profiles f).call_count
      = countEnter f tr := by
  have hzero : ((konpeito_profile_init initialState n pth).profiles f).call_count = 0 := by
    simp [konpeito_profile_init, initialState]
  have hinit : (konpeito_profile_init initialState n pth).initialized = true := by
    simp [konpeito_profile_init, initialState]
  have h := runTrace_call_count tr [] (konpeito_profile_init initialState n pth) [] f
    hinit rfl (by simp) hnest (by rw [hzero]; decide)
  rw [h, hzero, Nat.zero_add, Nat.mod_eq_of_lt hcnt]

/-- Witness for the amended C1: a two-function nested trace records one
call for function 0. -/
theorem call_count_matches_enters_ex :
    ((runTrace (konpeito_profile_init initialState 10 none, [])
        [PEvent.enter 0 (some ['a']) 0, PEvent.enter 1 (some ['b']) 2,
         PEvent.exit 1 5, PEvent.exit 0 9]).1.profiles 0).call_count = 1 :=
  call_count_matches_enters 10 none
    [PEvent.enter 0 (some ['a']) 0, PEvent.enter 1 (some ['b']) 2,
     PEvent.exit 1 5, PEvent.exit 0 9] 0 (by decide) (by decide)

/-- C1 counterexample to the claim as stated: `deepTrace` is well-nested
with all ids in range and contains 257 enters of function 0, but the
recorded call count is 256 — the 257th enter arrives with the thread
stack at `MAX_CALL_DEPTH` and is dropped without counting. -/
theorem update_preserve_call_count {gp : Int → FunctionProfile} {id : Int}
    {p1 : FunctionProfile} (h : p1.call_count = (gp id).call_count) (f : Int) :
    ((Function.update gp id p1) f).call_count = (gp f).call_count := by
  by_cases hf : f = id
  · subst hf
    rw [Function.update_same, h]
  · rw [Function.update_noteq hf]

/-- No exit event ever changes any call count. -/
theorem exit_call_count (g : ProfilerState) (tls : List CallStackEntry)
    (id : Int) (now : Nat) (f : Int) :
    ((konpeito_profile_exit g tls id now).1.profiles f).call_count
      = (g.profiles f).call_count := by
  cases tls with
  | nil =>
      unfold konpeito_profile_exit
      split
      · rfl
      · split
        · rfl
        · rfl
  | cons top rest =>
      unfold konpeito_profile_exit
      split
      · rfl
      · split
        · rfl
        · dsimp only
          split
          · rw [record_stack_time_profiles]
            dsimp only
            apply update_preserve_call_count
            rfl
          · rfl

theorem runTrace_append (s : ProfilerState × List CallStackEntry)
    (t1 t2 : List PEvent) :
    runTrace s (t1 ++ t2) = runTrace (runTrace s t1) t2 := by
  induction t1 generalizing s with
  | nil => rfl
  | cons e t ih =>
      cases e with
      | enter id nm now =>
          rw [List.cons_append]
          show runTrace (konpeito_profile_enter s.1 s.2 id nm now) (t ++ t2)
              = runTrace (runTrace (konpeito_profile_enter s.1 s.2 id nm now) t) t2
          exact ih _
      | exit id now =>
          rw [List.cons_append]
          show runTrace (konpeito_profile_exit s.1 s.2 id now) (t ++ t2)
              = runTrace (runTrace (konpeito_profile_exit s.1 s.2 id now) t) t2
          exact ih _

theorem runTrace_replicate_exit_cc (k : Nat) :
    ∀ (s : ProfilerState × List CallStackEntry) (f : Int),
      ((runTrace s (List.replicate k (PEvent.exit 0 0))).1.profiles f).call_count
        = (s.1.profiles f).call_count := by
  induction k with
  | zero => intro s f; rfl
  | succ m ih =>
      intro s f
      rw [List.replicate_succ]
      unfold runTrace
      rw [ih]
      exact exit_call_count s.1 s.2 0 0 f

theorem runTrace_replicate_enter_cc (k : Nat) :
    ∀ (s : ProfilerState × List CallStackEntry),
      s.1.initialized = true →
      (s.1.profiles 0).call_count + k < U64MOD →
      ((runTrace s (List.replicate k (PEvent.enter 0 (some ['f']) 0))).1.profiles 0).call_count
        = (s.1.profiles 0).call_count + min k (MAX_CALL_DEPTH - s.2.length) := by
  induction k with
  | zero => intro s _ _; simp [runTrace]
  | succ m ih =>
      intro s hinit hcc
      rw [List.replicate_succ]
      unfold runTrace
      by_cases hdep : s.2.length < MAX_CALL_DEPTH
      · have hstep := enter_push_eq s.1 s.2 0 (some ['f']) 0 hinit (by decide) (by decide) hdep
        have hinit' : (konpeito_profile_enter s.1 s.2 0 (some ['f']) 0).1.initialized = true := by
          rw [hstep]
          exact hinit
        have hcc' : ((konpeito_profile_enter s.1 s.2 0 (some ['f']) 0).1.profiles 0).call_count + m < U64MOD := by
          rw [hstep]
          dsimp only
          rw [Function.update_same]
          show ((s.1.profiles 0).call_count + 1) % U64MOD + m < U64MOD
          rw [Nat.mod_eq_of_lt (by omega)]
          omega
        rw [ih (konpeito_profile_enter s.1 s.2 0 (some ['f']) 0) hinit' hcc']
        rw [hstep]
        dsimp only
        rw [Function.update_same]
        show ((s.1.profiles 0).call_count + 1) % U64MOD
            + min m (MAX_CALL_DEPTH - (s.2.length + 1))
          = (s.1.profiles 0).call_count + min (m + 1) (MAX_CALL_DEPTH - s.2.length)
        rw [Nat.mod_eq_of_lt (by omega)]
        omega
      · rw [enter_at_max_noop s.1 s.2 0 (some ['f']) 0 (not_lt.mp hdep), Prod.mk.eta]
        rw [ih s hinit (by omega)]
        have hz : MAX_CALL_DEPTH - s.2.length = 0 :=
          Nat.sub_eq_zero_of_le (not_lt.mp hdep)
        rw [hz]
        simp

set_option maxRecDepth 4000 in
/-- C1 counterexample to the claim as stated: `deepTrace` is well-nested
with all ids in range and contains 257 enters of function 0, but the
recorded call count is 256 — the 257th enter arrives with the thread
stack at `MAX_CALL_DEPTH` and is dropped without counting. -/
theorem call_count_cex :
    wellNested deepTrace = true
      ∧ idsInRange deepTrace = true
      ∧ countEnter 0 deepTrace = 257
      ∧ ((runTrace (konpeito_profile_init initialState 10 none, []) deepTrace).1.profiles 0).call_count
          = 256 := by
  refine ⟨by decide, by decide, by decide, ?_⟩
  unfold deepTrace
  rw [runTrace_append, runTrace_replicate_exit_cc]
  rw [runTrace_replicate_enter_cc 257 (konpeito_profile_init initialState 10 none, [])
    (by simp [konpeito_profile_init, initialState])
    (by simp [konpeito_profile_init, initialState]; decide)]
  have hz : ((konpeito_profile_init initialState 10 none).profiles 0).call_count = 0 := by
    simp [konpeito_profile_init, initialState]
  rw [hz]
  decide
